import Mathlib

/-!
Verification development for the apollo-link-gate repository.

The repository has two source files:
* `src/extractKey.ts` — a pure pipeline over GraphQL documents: an AST walker
  collecting argument nodes, an extractor that finds and strips a
  `@serialize` directive from the single operation definition (pruning
  variable definitions that become unused), a key materializer that resolves
  the directive key list against runtime variables into a JSON string, and
  an identity-keyed memoization cache for the document transform.
* `src/dedupeLink.ts` — the `DedupeLink` gate/queue controller: an open/closed
  gate, a key-indexed queue of pending operations while closed, persistence of
  the queue (`localStorage`) and of the gate flag (`sessionStorage`), and
  rehydration of a persisted queue through the Apollo client.

This file shallowly embeds both files.  JavaScript objects used as maps are
modelled as insertion-ordered association lists in which assigning to an
existing key keeps its position (the semantics of plain JS objects for
non-integer-like string keys).  Reference identity of a GraphQL document -
the memoization key - is modelled by tagging each document value with a
numeric reference id (`DocRef`).  JS `undefined` is modelled with `Option`,
thrown exceptions with `Except String`, and the observable side effects of
the gate (forwarding a queued operation downstream, re-issuing a stored
mutation through the client) as an explicit event trace.
-/

namespace ApolloLinkGate

/-- Decidable equality for `Except`, used to evaluate the embedding at
concrete inputs. -/
instance {ε α : Type} [DecidableEq ε] [DecidableEq α] : DecidableEq (Except ε α) :=
  fun x y =>
    match x, y with
    | .ok a, .ok b =>
        if h : a = b then .isTrue (by rw [h]) else .isFalse (by intro hh; cases hh; exact h rfl)
    | .error a, .error b =>
        if h : a = b then .isTrue (by rw [h]) else .isFalse (by intro hh; cases hh; exact h rfl)
    | .ok _, .error _ => .isFalse (by intro hh; cases hh)
    | .error _, .ok _ => .isFalse (by intro hh; cases hh)

/-! ## JavaScript runtime values and JSON serialization

`materializeKey` ends in `JSON.stringify` over the array of resolved values,
so the embedding needs the JS value domain and its JSON serialization.
JS numbers are modelled as integers (`num`) plus non-integral numbers
represented by their canonical decimal serialization (`numRepr`): a
`parseFloat` of a canonical GraphQL float literal is modelled as the number
whose `JSON.stringify` image is that literal itself.  Floating-point
rounding is not modelled. -/

inductive JSValue where
  | null
  | bool (b : Bool)
  | num (n : Int)
  | numRepr (repr : String)
  | str (s : String)
  | arr (values : List JSValue)
  | obj (fields : List (String × JSValue))

/-- One hexadecimal digit, for `\u00XX` escapes. -/
def hexDigit (n : Nat) : String :=
  if n = 0 then "0" else if n = 1 then "1" else if n = 2 then "2"
  else if n = 3 then "3" else if n = 4 then "4" else if n = 5 then "5"
  else if n = 6 then "6" else if n = 7 then "7" else if n = 8 then "8"
  else if n = 9 then "9" else if n = 10 then "a" else if n = 11 then "b"
  else if n = 12 then "c" else if n = 13 then "d" else if n = 14 then "e"
  else "f"

/-- How `JSON.stringify` escapes a single character inside a string. -/
def jsonEscapeChar (c : Char) : String :=
  if c = '"' then "\\\""
  else if c = '\\' then "\\\\"
  else if c = '\x08' then "\\b"
  else if c = '\x0c' then "\\f"
  else if c = '\n' then "\\n"
  else if c = '\r' then "\\r"
  else if c = '\t' then "\\t"
  else if c.toNat < 32 then "\\u00" ++ hexDigit (c.toNat / 16) ++ hexDigit (c.toNat % 16)
  else String.singleton c

/-- `JSON.stringify` of a string value: double quotes around the escaped body. -/
def jsonQuote (s : String) : String :=
  "\"" ++ String.join (s.toList.map jsonEscapeChar) ++ "\""

mutual

/-- `JSON.stringify` of a single JS value (functions and `undefined` cannot
occur in `JSValue`; they are stripped before the values reach this point). -/
def JSValue.stringify : JSValue → String
  | .null => "null"
  | .bool true => "true"
  | .bool false => "false"
  | .num n => toString n
  | .numRepr r => r
  | .str s => jsonQuote s
  | .arr values => "[" ++ stringifyElems values ++ "]"
  | .obj fields => "\x7b" ++ stringifyFields fields ++ "\x7d"

/-- Comma-separated serialization of array elements, in order. -/
def stringifyElems : List JSValue → String
  | [] => ""
  | [v] => JSValue.stringify v
  | v :: w :: rest => JSValue.stringify v ++ "," ++ stringifyElems (w :: rest)

/-- Comma-separated serialization of object fields, in order. -/
def stringifyFields : List (String × JSValue) → String
  | [] => ""
  | [(n, v)] => jsonQuote n ++ ":" ++ JSValue.stringify v
  | (n, v) :: f :: rest => jsonQuote n ++ ":" ++ JSValue.stringify v ++ "," ++ stringifyFields (f :: rest)

end

/-- `JSON.stringify` of a JS array, as `materializeKey` produces it. -/
def jsonStringifyArray (values : List JSValue) : String :=
  "[" ++ stringifyElems values ++ "]"

/-! ## The GraphQL AST

Only the node shapes the two source files consult are modelled.  The
`graphql` parser always materializes the argument lists of directives and
fields as arrays (empty when no parentheses are written), so those are plain
lists; selection sets of fields are genuinely optional in the AST.  A value
node records the fields the sources read: its `kind` tag, its `value`
payload, and `name.value` for variables. -/

inductive ValueNode where
  | varNode (name : String)
  | intValue (value : String)
  | floatValue (value : String)
  | stringValue (value : String)
  | booleanValue (value : Bool)
  | enumValue (value : String)
  | listValue (values : List ValueNode)
  | objectValue (fields : List (String × ValueNode))

/-- The `kind` tag of a value node, as the JS AST spells it. -/
def ValueNode.kindName : ValueNode → String
  | .varNode _ => "Variable"
  | .intValue _ => "IntValue"
  | .floatValue _ => "FloatValue"
  | .stringValue _ => "StringValue"
  | .booleanValue _ => "BooleanValue"
  | .enumValue _ => "EnumValue"
  | .listValue _ => "ListValue"
  | .objectValue _ => "ObjectValue"

mutual

/-- Decidable equality for value nodes, written as a mutual structural
definition because `deriving` does not handle the nested list occurrences. -/
def ValueNode.decEq : (a b : ValueNode) → Decidable (a = b)
  | .varNode a, .varNode b =>
      if h : a = b then .isTrue (by rw [h]) else .isFalse (by intro hh; cases hh; exact h rfl)
  | .intValue a, .intValue b =>
      if h : a = b then .isTrue (by rw [h]) else .isFalse (by intro hh; cases hh; exact h rfl)
  | .floatValue a, .floatValue b =>
      if h : a = b then .isTrue (by rw [h]) else .isFalse (by intro hh; cases hh; exact h rfl)
  | .stringValue a, .stringValue b =>
      if h : a = b then .isTrue (by rw [h]) else .isFalse (by intro hh; cases hh; exact h rfl)
  | .booleanValue a, .booleanValue b =>
      if h : a = b then .isTrue (by rw [h]) else .isFalse (by intro hh; cases hh; exact h rfl)
  | .enumValue a, .enumValue b =>
      if h : a = b then .isTrue (by rw [h]) else .isFalse (by intro hh; cases hh; exact h rfl)
  | .listValue xs, .listValue ys =>
      match ValueNode.decEqList xs ys with
      | .isTrue h => .isTrue (by rw [h])
      | .isFalse h => .isFalse (by intro hh; cases hh; exact h rfl)
  | .objectValue xs, .objectValue ys =>
      match ValueNode.decEqFields xs ys with
      | .isTrue h => .isTrue (by rw [h])
      | .isFalse h => .isFalse (by intro hh; cases hh; exact h rfl)
  | .varNode _, .intValue _ => .isFalse (by intro hh; cases hh)
  | .varNode _, .floatValue _ => .isFalse (by intro hh; cases hh)
  | .varNode _, .stringValue _ => .isFalse (by intro hh; cases hh)
  | .varNode _, .booleanValue _ => .isFalse (by intro hh; cases hh)
  | .varNode _, .enumValue _ => .isFalse (by intro hh; cases hh)
  | .varNode _, .listValue _ => .isFalse (by intro hh; cases hh)
  | .varNode _, .objectValue _ => .isFalse (by intro hh; cases hh)
  | .intValue _, .varNode _ => .isFalse (by intro hh; cases hh)
  | .intValue _, .floatValue _ => .isFalse (by intro hh; cases hh)
  | .intValue _, .stringValue _ => .isFalse (by intro hh; cases hh)
  | .intValue _, .booleanValue _ => .isFalse (by intro hh; cases hh)
  | .intValue _, .enumValue _ => .isFalse (by intro hh; cases hh)
  | .intValue _, .listValue _ => .isFalse (by intro hh; cases hh)
  | .intValue _, .objectValue _ => .isFalse (by intro hh; cases hh)
  | .floatValue _, .varNode _ => .isFalse (by intro hh; cases hh)
  | .floatValue _, .intValue _ => .isFalse (by intro hh; cases hh)
  | .floatValue _, .stringValue _ => .isFalse (by intro hh; cases hh)
  | .floatValue _, .booleanValue _ => .isFalse (by intro hh; cases hh)
  | .floatValue _, .enumValue _ => .isFalse (by intro hh; cases hh)
  | .floatValue _, .listValue _ => .isFalse (by intro hh; cases hh)
  | .floatValue _, .objectValue _ => .isFalse (by intro hh; cases hh)
  | .stringValue _, .varNode _ => .isFalse (by intro hh; cases hh)
  | .stringValue _, .intValue _ => .isFalse (by intro hh; cases hh)
  | .stringValue _, .floatValue _ => .isFalse (by intro hh; cases hh)
  | .stringValue _, .booleanValue _ => .isFalse (by intro hh; cases hh)
  | .stringValue _, .enumValue _ => .isFalse (by intro hh; cases hh)
  | .stringValue _, .listValue _ => .isFalse (by intro hh; cases hh)
  | .stringValue _, .objectValue _ => .isFalse (by intro hh; cases hh)
  | .booleanValue _, .varNode _ => .isFalse (by intro hh; cases hh)
  | .booleanValue _, .intValue _ => .isFalse (by intro hh; cases hh)
  | .booleanValue _, .floatValue _ => .isFalse (by intro hh; cases hh)
  | .booleanValue _, .stringValue _ => .isFalse (by intro hh; cases hh)
  | .booleanValue _, .enumValue _ => .isFalse (by intro hh; cases hh)
  | .booleanValue _, .listValue _ => .isFalse (by intro hh; cases hh)
  | .booleanValue _, .objectValue _ => .isFalse (by intro hh; cases hh)
  | .enumValue _, .varNode _ => .isFalse (by intro hh; cases hh)
  | .enumValue _, .intValue _ => .isFalse (by intro hh; cases hh)
  | .enumValue _, .floatValue _ => .isFalse (by intro hh; cases hh)
  | .enumValue _, .stringValue _ => .isFalse (by intro hh; cases hh)
  | .enumValue _, .booleanValue _ => .isFalse (by intro hh; cases hh)
  | .enumValue _, .listValue _ => .isFalse (by intro hh; cases hh)
  | .enumValue _, .objectValue _ => .isFalse (by intro hh; cases hh)
  | .listValue _, .varNode _ => .isFalse (by intro hh; cases hh)
  | .listValue _, .intValue _ => .isFalse (by intro hh; cases hh)
  | .listValue _, .floatValue _ => .isFalse (by intro hh; cases hh)
  | .listValue _, .stringValue _ => .isFalse (by intro hh; cases hh)
  | .listValue _, .booleanValue _ => .isFalse (by intro hh; cases hh)
  | .listValue _, .enumValue _ => .isFalse (by intro hh; cases hh)
  | .listValue _, .objectValue _ => .isFalse (by intro hh; cases hh)
  | .objectValue _, .varNode _ => .isFalse (by intro hh; cases hh)
  | .objectValue _, .intValue _ => .isFalse (by intro hh; cases hh)
  | .objectValue _, .floatValue _ => .isFalse (by intro hh; cases hh)
  | .objectValue _, .stringValue _ => .isFalse (by intro hh; cases hh)
  | .objectValue _, .booleanValue _ => .isFalse (by intro hh; cases hh)
  | .objectValue _, .enumValue _ => .isFalse (by intro hh; cases hh)
  | .objectValue _, .listValue _ => .isFalse (by intro hh; cases hh)

/-- Decidable equality for lists of value nodes. -/
def ValueNode.decEqList : (xs ys : List ValueNode) → Decidable (xs = ys)
  | [], [] => .isTrue rfl
  | [], _ :: _ => .isFalse (by intro hh; cases hh)
  | _ :: _, [] => .isFalse (by intro hh; cases hh)
  | x :: xs, y :: ys =>
      match ValueNode.decEq x y, ValueNode.decEqList xs ys with
      | .isTrue h1, .isTrue h2 => .isTrue (by rw [h1, h2])
      | .isFalse h1, _ => .isFalse (by intro hh; cases hh; exact h1 rfl)
      | _, .isFalse h2 => .isFalse (by intro hh; cases hh; exact h2 rfl)

/-- Decidable equality for object field lists. -/
def ValueNode.decEqFields : (xs ys : List (String × ValueNode)) → Decidable (xs = ys)
  | [], [] => .isTrue rfl
  | [], _ :: _ => .isFalse (by intro hh; cases hh)
  | _ :: _, [] => .isFalse (by intro hh; cases hh)
  | (n, x) :: xs, (m, y) :: ys =>
      match String.decEq n m, ValueNode.decEq x y, ValueNode.decEqFields xs ys with
      | .isTrue h0, .isTrue h1, .isTrue h2 => .isTrue (by rw [h0, h1, h2])
      | .isFalse h0, _, _ => .isFalse (by intro hh; cases hh; exact h0 rfl)
      | _, .isFalse h1, _ => .isFalse (by intro hh; cases hh; exact h1 rfl)
      | _, _, .isFalse h2 => .isFalse (by intro hh; cases hh; exact h2 rfl)

end

instance : DecidableEq ValueNode := ValueNode.decEq

/-- An argument node: `name.value` and `value`. -/
structure Argument where
  name : String
  value : ValueNode
deriving DecidableEq

/-- A directive node: `name.value` and its argument array. -/
structure Directive where
  name : String
  arguments : List Argument
deriving DecidableEq

/-- A selection node.  A selection set node is modelled by its list of
selections.  Fields carry their (possibly absent) nested selection set;
inline fragments always carry one. -/
inductive Selection where
  | field (directives : List Directive) (arguments : List Argument)
      (selectionSet : Option (List Selection))
  | fragmentSpread (directives : List Directive)
  | inlineFragment (directives : List Directive) (selectionSet : List Selection)

/-- A variable definition node; the sources only read `d.variable.name.value`. -/
structure VariableDefinition where
  variableName : String
deriving DecidableEq

/-- An operation definition node. -/
structure OperationDefinition where
  variableDefinitions : Option (List VariableDefinition)
  directives : List Directive
  selectionSet : List Selection

/-- A fragment definition node. -/
structure FragmentDefinition where
  directives : List Directive
  selectionSet : List Selection

/-- A top-level definition; `otherDefinition` stands for every definition
kind that is neither an operation nor a fragment. -/
inductive Definition where
  | operationDefinition (op : OperationDefinition)
  | fragmentDefinition (frag : FragmentDefinition)
  | otherDefinition

/-- A document node. -/
structure Document where
  definitions : List Definition

/-- A reference to a document: the document value tagged with a numeric
reference id standing for JS object identity.  The memoization cache of
`extractDirectiveArguments` is keyed by this id. -/
structure DocRef where
  refId : Nat
  node : Document

/-! ## src/extractKey.ts — the AST walker

The source builds flat argument lists with `.map(...)` followed by
`.reduce((a, b) => a.concat(b), [])` (or the spread-based fold); the
embedding writes the recursion through nested selections as a mutual
definition so that it is structural, and proves the `map`/`fold` shape as the
lemma `getAllArgumentsFromSelections_eq_foldl` below. -/

/-- `getAllArgumentsFromDirectives(directives)`: flattens `d.arguments || []`
over the (possibly absent) directive list.  A directive node produced by the
parser always has an argument array, so the `|| []` fallback has no effect
here. -/
def getAllArgumentsFromDirectives (directives : Option (List Directive)) : List Argument :=
  match directives with
  | none => []
  | some ds => (ds.map (fun d => d.arguments)).foldl (fun a b => a ++ b) []

mutual

/-- `getAllArgumentsFromSelection(selection)`: directive arguments of the
selection; for a `Field` also its own arguments and, recursively, the
arguments of its selection set.  Non-field selections (fragment spreads,
inline fragments) contribute only their directive arguments — the source
does not descend into an inline fragment's selection set. -/
def getAllArgumentsFromSelection : Selection → List Argument
  | .field directives arguments none =>
      getAllArgumentsFromDirectives (some directives) ++ arguments
  | .field directives arguments (some sels) =>
      getAllArgumentsFromDirectives (some directives) ++ arguments ++
        getAllArgumentsFromSelections sels
  | .fragmentSpread directives => getAllArgumentsFromDirectives (some directives)
  | .inlineFragment directives _ => getAllArgumentsFromDirectives (some directives)

/-- Flattening of `getAllArgumentsFromSelection` over a selection list. -/
def getAllArgumentsFromSelections : List Selection → List Argument
  | [] => []
  | s :: rest => getAllArgumentsFromSelection s ++ getAllArgumentsFromSelections rest

end

/-- `getAllArgumentsFromSelectionSet(selectionSet)`: empty when the selection
set is absent. -/
def getAllArgumentsFromSelectionSet (selectionSet : Option (List Selection)) : List Argument :=
  match selectionSet with
  | none => []
  | some sels => getAllArgumentsFromSelections sels

/-- `getAllArgumentsFromOperation(op)`. -/
def getAllArgumentsFromOperation (op : OperationDefinition) : List Argument :=
  getAllArgumentsFromDirectives (some op.directives) ++
    getAllArgumentsFromSelectionSet (some op.selectionSet)

/-- `getAllArgumentsFromFragment(frag)`. -/
def getAllArgumentsFromFragment (frag : FragmentDefinition) : List Argument :=
  getAllArgumentsFromDirectives (some frag.directives) ++
    getAllArgumentsFromSelectionSet (some frag.selectionSet)

/-- `getAllArgumentsFromDocument(doc)`: arguments of every fragment and
operation definition, in definition order; other definition kinds contribute
nothing. -/
def getAllArgumentsFromDocument (doc : Document) : List Argument :=
  (doc.definitions.map (fun d =>
    match d with
    | .fragmentDefinition frag => getAllArgumentsFromFragment frag
    | .operationDefinition op => getAllArgumentsFromOperation op
    | .otherDefinition => [])).foldl (fun a b => a ++ b) []

mutual

/-- `getVariablesFromValueNode(node)`: the variable nodes reachable inside a
value node.  The source returns the nodes themselves and every caller reads
`v.name.value`; the embedding returns the names directly. -/
def getVariablesFromValueNode : ValueNode → List String
  | .varNode name => [name]
  | .listValue values => getVariablesFromValueNodes values
  | .objectValue fields => getVariablesFromObjectFields fields
  | .intValue _ => []
  | .floatValue _ => []
  | .stringValue _ => []
  | .booleanValue _ => []
  | .enumValue _ => []

/-- Flattening of `getVariablesFromValueNode` over the elements of a list
value. -/
def getVariablesFromValueNodes : List ValueNode → List String
  | [] => []
  | v :: rest => getVariablesFromValueNode v ++ getVariablesFromValueNodes rest

/-- Flattening of `getVariablesFromValueNode` over `node.fields.map(f => f.value)`
of an object value. -/
def getVariablesFromObjectFields : List (String × ValueNode) → List String
  | [] => []
  | (_, v) :: rest => getVariablesFromValueNode v ++ getVariablesFromObjectFields rest

end

/-- `getVariablesFromArguments(args)`. -/
def getVariablesFromArguments (args : List Argument) : List String :=
  (args.map (fun arg => getVariablesFromValueNode arg.value)).foldl (fun a b => a ++ b) []

/-! ## External collaborators from `@apollo/client/utilities`

`checkDocument`, `getOperationDefinition` and `cloneDeep` are imported by the
sources from the Apollo utilities package; they are modelled here at their
interface: `checkDocument` accepts documents whose definitions are all
operations or fragments with at most one operation, `getOperationDefinition`
returns the first operation definition, and `cloneDeep` needs no model
because every rewrite in the embedding is already pure. -/

/-- Model of `checkDocument(doc)`. -/
def checkDocument (doc : Document) : Except String Unit :=
  if doc.definitions.any (fun d =>
      match d with | .otherDefinition => true | _ => false) then
    .error "Found a definition that is neither an operation nor a fragment"
  else if 1 < doc.definitions.countP (fun d =>
      match d with | .operationDefinition _ => true | _ => false) then
    .error "Ambiguous GraphQL document: contains multiple operations"
  else .ok ()

/-- Model of `getOperationDefinition(doc)`: the first operation definition,
when one exists. -/
def getOperationDefinition (doc : Document) : Option OperationDefinition :=
  doc.definitions.findSome? (fun d =>
    match d with
    | .operationDefinition op => some op
    | _ => none)

/-- Rewrites the first operation definition of a document (the node
`getOperationDefinition` returns, which the source mutates on a deep clone). -/
def updateFirstOperationDefinitionAux (f : OperationDefinition → OperationDefinition) :
    List Definition → List Definition
  | [] => []
  | .operationDefinition op :: rest => .operationDefinition (f op) :: rest
  | d :: rest => d :: updateFirstOperationDefinitionAux f rest

/-- Pure form of "mutate the operation definition in place". -/
def updateFirstOperationDefinition (doc : Document)
    (f : OperationDefinition → OperationDefinition) : Document :=
  ⟨updateFirstOperationDefinitionAux f doc.definitions⟩

/-! ## src/extractKey.ts — directive extraction and document rewriting -/

/-- `DIRECTIVE_NAME`. -/
def DIRECTIVE_NAME : String := "serialize"

/-- `removeVariableDefinitionsFromDocumentIfUnused(names, doc)`: drops from
the operation's variable definition list every name in `names` that the
argument walker does not see used anywhere in `doc`.  The source mutates
`doc` in place (its caller passes a deep clone); the embedding returns the
updated document.  When the document has no operation definition the source
would crash; that point is unreachable from `extractDirectiveArguments`,
which only calls this after finding a directive on the operation. -/
def removeVariableDefinitionsFromDocumentIfUnused (names : List String) (doc : Document) :
    Document :=
  if names.length < 1 then doc
  else
    let args := getAllArgumentsFromDocument doc
    let usedNames := getVariablesFromArguments args
    let filteredNames := names.filter (fun name => !(usedNames.contains name))
    if filteredNames.length < 1 then doc
    else
      updateFirstOperationDefinition doc (fun op =>
        match op.variableDefinitions with
        | none => op
        | some defs =>
            let kept := defs.filter (fun d => !(filteredNames.contains d.variableName))
            { op with variableDefinitions := some kept })

/-- `extractDirective(query, directiveName)`:
`query.directives.filter(node => node.name.value === directiveName)[0]`. -/
def extractDirective (query : OperationDefinition) (directiveName : String) :
    Option Directive :=
  (query.directives.filter (fun node => node.name == directiveName)).head?

/-- `removeDirectiveFromDocument(doc, directive)`: a copy of `doc` whose
operation definition has `directive` removed from its directive list and the
variable definitions used only by the removed directive pruned.  The source
filters by reference (`node !== directive`) on an alias-free parser tree;
the embedding filters by value, which coincides whenever the directive node
occurs at most once in the list. -/
def removeDirectiveFromDocument (doc : Document) (directive : Option Directive) : Document :=
  match directive with
  | none => doc
  | some dir =>
      let docWithoutDirective := updateFirstOperationDefinition doc (fun op =>
        { op with directives := op.directives.filter (fun node => node != dir) })
      let removedVariableNames := getVariablesFromArguments dir.arguments
      removeVariableDefinitionsFromDocumentIfUnused removedVariableNames docWithoutDirective

/-- The value `extractDirectiveArguments` computes for a document:
`{ doc, args? }` where `args` holds the element list of the `key` argument's
ListValue node when the directive was found. -/
structure ExtractResult where
  doc : Document
  args : Option (List ValueNode)

/-- The `documentCache`: a map from document reference identity (modelled by
`DocRef.refId`) to the memoized transform result.  The source holds it in a
module-global `Map`; the embedding threads it explicitly. -/
abbrev TransformCache := List (Nat × ExtractResult)

/-- `cache.get(doc)` keyed by reference id. -/
def lookupCache (cache : TransformCache) (docId : Nat) : Option ExtractResult :=
  (cache.find? (fun p => p.1 == docId)).map (fun p => p.2)

/-- `extractDirectiveArguments(doc, cache = documentCache)`.  Mirrors the
source exactly: a cache hit returns the cached result untouched (before any
validation); otherwise the document is checked, the first `serialize`
directive extracted, its `key` argument validated to be a ListValue, the
document rewritten, and — only in this directive-bearing branch — the result
stored in the cache.  A document without the directive is returned unchanged
with no args and is NOT cached.  The second error message interpolates
`argument.kind` in the source, which is the kind tag of the Argument node
itself, hence always the literal string `Argument`. -/
def extractDirectiveArguments (docRef : DocRef) (cache : TransformCache) :
    Except String ExtractResult × TransformCache :=
  match lookupCache cache docRef.refId with
  | some cached => (.ok cached, cache)
  | none =>
    match checkDocument docRef.node with
    | .error e => (.error e, cache)
    | .ok _ =>
      match getOperationDefinition docRef.node with
      | none => (.error "TypeError: cannot read properties of undefined", cache)
      | some op =>
        match extractDirective op DIRECTIVE_NAME with
        | none => (.ok ⟨docRef.node, none⟩, cache)
        | some directive =>
          match directive.arguments.find? (fun d => d.name == "key") with
          | none =>
              (.error ("The @" ++ DIRECTIVE_NAME ++ " directive requires a \x27key\x27 argument"),
               cache)
          | some argument =>
            match argument.value with
            | .listValue values =>
                let ret : ExtractResult :=
                  ⟨removeDirectiveFromDocument docRef.node (some directive), some values⟩
                (.ok ret, (docRef.refId, ret) :: cache)
            | _ =>
                (.error ("The @" ++ DIRECTIVE_NAME ++
                   " directive\x27s \x27key\x27 argument must be of type List, got Argument"),
                 cache)

/-! ## src/extractKey.ts — key materialization -/

/-- Runtime variable bindings of an operation: a JS object mapping variable
names to values. -/
abbrev Bindings := List (String × JSValue)

/-- `getVariableOrDie(variables, name)`: `variables[name]`, throwing when
`variables` is absent or has no such property. -/
def getVariableOrDie (variables' : Option Bindings) (name : String) : Except String JSValue :=
  match variables' with
  | none => .error ("No value supplied for variable $" ++ name ++ " used in @serialize key")
  | some vars =>
    match vars.find? (fun p => p.1 == name) with
    | none => .error ("No value supplied for variable $" ++ name ++ " used in @serialize key")
    | some p => .ok p.2

/-- Accumulates the leading decimal digits, as `parseInt` consumes them. -/
def parseDecimalDigits : List Char → Nat → Nat
  | [], acc => acc
  | c :: rest, acc =>
      if c.isDigit then parseDecimalDigits rest (acc * 10 + (c.toNat - 48)) else acc

/-- `parseInt(value, 10)` on a grammar-valid GraphQL IntValue literal
(an optional sign followed by decimal digits).  The NaN results `parseInt`
produces on strings the parser cannot emit are not modelled. -/
def jsParseInt (s : String) : Int :=
  match s.toList with
  | '-' :: rest => -(parseDecimalDigits rest 0 : Int)
  | '+' :: rest => (parseDecimalDigits rest 0 : Int)
  | cs => (parseDecimalDigits cs 0 : Int)

/-- `valueForArgument(value, variables)`: resolves one element of the key
list.  Variables are looked up in the bindings; Int/Float literals become
their parsed numeric value; String/Boolean/Enum literals their `value`
payload; every other kind throws naming the kind. -/
def valueForArgument (value : ValueNode) (variables' : Option Bindings) :
    Except String JSValue :=
  match value with
  | .varNode name => getVariableOrDie variables' name
  | .intValue v => .ok (.num (jsParseInt v))
  | .floatValue v => .ok (.numRepr v)
  | .stringValue v => .ok (.str v)
  | .booleanValue b => .ok (.bool b)
  | .enumValue v => .ok (.str v)
  | other =>
      .error ("Argument of type " ++ other.kindName ++ " is not allowed in @" ++
        DIRECTIVE_NAME ++ " directive")

/-- `materializeKey(argumentList, variables)`:
`JSON.stringify(argumentList.values.map(val => valueForArgument(val, variables)))`.
The embedding receives the `values` list of the ListValue node directly
(`extractDirectiveArguments` stores exactly that list), resolves each element
in order — the first throwing element aborts the whole map — and serializes
the resolved array. -/
def materializeKey (argumentListValues : List ValueNode) (variables' : Option Bindings) :
    Except String String :=
  (argumentListValues.mapM (fun val => valueForArgument val variables')).map jsonStringifyArray

/-! ## src/extractKey.ts — the operation-level entry point -/

/-- The context fields of an Apollo operation that the two sources consult. -/
structure OperationContext where
  serializationKey : Option String
  skipQueue : Bool
  optimisticResponse : Option JSValue

/-- An Apollo `Operation` as far as the sources read it: the query document
(by reference), the runtime variables, and the context. -/
structure Operation where
  query : DocRef
  variables' : Option Bindings
  context : OperationContext

/-- Result shape of `extractKey`: the (possibly rewritten) operation and the
dedup key when one was produced. -/
structure ExtractKeyResult where
  operation : Operation
  key : Option String

/-- JS truthiness of an optional string: `undefined` and the empty string are
falsy. -/
def truthyString (s : Option String) : Option String :=
  match s with
  | none => none
  | some v => if v = "" then none else some v

/-- `extractKey(operation)`.  A truthy `serializationKey` on the context
short-circuits the whole pipeline and is used verbatim.  Otherwise the
document transform runs (through the cache); with no `args` the original
operation is returned with no key; with `args` the key is materialized
against the operation's variables and a new operation is built via
`createOperation` with the same context and variables and the rewritten
query (so the server never sees the directive).  The rewritten query is a
fresh object in JS; no model component consults its reference id, which is
carried over. -/
def extractKey (operation : Operation) (cache : TransformCache) :
    Except String ExtractKeyResult × TransformCache :=
  match truthyString operation.context.serializationKey with
  | some serializationKey => (.ok ⟨operation, some serializationKey⟩, cache)
  | none =>
    match extractDirectiveArguments operation.query cache with
    | (.error e, cache') => (.error e, cache')
    | (.ok res, cache') =>
      match res.args with
      | none => (.ok ⟨operation, none⟩, cache')
      | some args =>
        match materializeKey args operation.variables' with
        | .error e => (.error e, cache')
        | .ok key =>
            let newOperation : Operation :=
              { operation with query := ⟨operation.query.refId, res.doc⟩ }
            (.ok ⟨newOperation, some key⟩, cache')

/-! ## src/dedupeLink.ts — the gate & queue controller

`DedupeLink` keeps a key-indexed queue of pending operations
(`opQueue`, a plain JS object), a gate flag (`isOpen`, persisted in
`sessionStorage` under `ald-on`), and persists a serialized snapshot of the
queue in `localStorage` under `ald-ops`.  The embedding models:

* the queue as an insertion-ordered association list where assigning to a
  present key keeps its position (plain-object semantics for the JSON-string
  keys the pipeline produces; the special JS ordering of integer-like keys
  is not modelled),
* the two storage slots by their parsed contents (`Option`; `none` = no item
  stored).  `JSON.stringify` of a queue entry drops the non-serializable
  `forward` and `observer` functions, keeping `operation` and
  `optimisticResponse` — `StoredEntry`.  A stored string is never empty, so
  JS truthiness of `localStorage.getItem` is exactly `Option.isSome`,
* the payloads captured in a queue entry (operation, forward continuation,
  observer) as opaque numeric handles — their structure is irrelevant to the
  queue logic,
* the observable effects as an event trace: `forwarded k e` stands for
  `forward(operation).subscribe(observer)` of entry `e` queued under `k`,
  and `mutated e` for `client.mutate({...})` of a stored entry during
  rehydration,
* the asynchronous completion of the rehydration batch
  (`Promise.all(...).then(...).catch(...)`) by a boolean outcome parameter:
  `true` = every `client.mutate` succeeded (the `then` clears the snapshot
  slot), `false` = some re-issue failed (the `catch` only logs; nothing is
  thrown to the caller and the slot keeps its contents). -/

/-- A queue entry as `request` captures it (`OperationQueueEntry`). -/
structure OperationQueueEntry where
  operation : Nat
  forward : Nat
  observer : Nat
  optimisticResponse : Option Nat
deriving DecidableEq, Repr

/-- What survives `JSON.stringify` of an `OperationQueueEntry`: the functions
are dropped. -/
structure StoredEntry where
  operation : Nat
  optimisticResponse : Option Nat
deriving DecidableEq, Repr

/-- `JSON.stringify` of one queue entry. -/
def stripEntry (e : OperationQueueEntry) : StoredEntry :=
  ⟨e.operation, e.optimisticResponse⟩

/-- The parsed form of `JSON.stringify(this.opQueue)`. -/
def stripQueue (q : List (String × OperationQueueEntry)) : List (String × StoredEntry) :=
  q.map (fun p => (p.1, stripEntry p.2))

/-- The private state of a `DedupeLink` instance together with its two
storage slots.  `hasStorage` is the module-level `typeof localStorage !==
'undefined'` check; it never changes. -/
structure DedupeLinkState where
  opQueue : List (String × OperationQueueEntry)
  isOpen : Bool
  hasStorage : Bool
  storedOps : Option (List (String × StoredEntry))
  storedOpen : Option String
deriving DecidableEq, Repr

/-- Observable effects of the gate. -/
inductive LinkEvent where
  | forwarded (key : String) (entry : OperationQueueEntry)
  | mutated (entry : StoredEntry)
deriving DecidableEq, Repr

/-- `this.opQueue[key] = entry` on a plain JS object: replaces in place when
the key is present (keeping its position), appends otherwise. -/
def setKey (q : List (String × OperationQueueEntry)) (key : String)
    (entry : OperationQueueEntry) : List (String × OperationQueueEntry) :=
  if q.any (fun p => p.1 == key) then
    q.map (fun p => if p.1 == key then (key, entry) else p)
  else q ++ [(key, entry)]

/-- Reading `this.opQueue[key]`. -/
def lookupEntry (q : List (String × OperationQueueEntry)) (key : String) :
    Option OperationQueueEntry :=
  (q.find? (fun p => p.1 == key)).map (fun p => p.2)

/-- `enqueue(key, entry)`: store the entry under the key — replacing any
previous entry for that key — and persist the snapshot. -/
def enqueue (s : DedupeLinkState) (key : String) (entry : OperationQueueEntry) :
    DedupeLinkState :=
  let q := setKey s.opQueue key entry
  { s with
    opQueue := q
    storedOps := if s.hasStorage then some (stripQueue q) else s.storedOps }

/-- `cancelOperation(key)`: `delete this.opQueue[key]` and persist the
snapshot.  Deletion is by key — whatever entry currently sits under the key
is removed, and the `setItem` runs even when the key was absent. -/
def cancelOperation (s : DedupeLinkState) (key : String) : DedupeLinkState :=
  let q := s.opQueue.filter (fun p => p.1 != key)
  { s with
    opQueue := q
    storedOps := if s.hasStorage then some (stripQueue q) else s.storedOps }

/-- `rehydrateQueue()`: when storage is available and the snapshot slot holds
a stored queue, re-issue every stored entry as a mutation through the client
(`batchSucceeds` abstracts the outcome of the whole `Promise.all` batch: on
success the slot is removed, on failure the error is logged and the slot is
left untouched — nothing propagates to the caller). -/
def rehydrateQueue (s : DedupeLinkState) (batchSucceeds : Bool) :
    DedupeLinkState × List LinkEvent :=
  if s.hasStorage then
    match s.storedOps with
    | some entries =>
        (if batchSucceeds then { s with storedOps := none } else s,
         entries.map (fun p => LinkEvent.mutated p.2))
    | none => (s, [])
  else (s, [])

/-- `open()` (named `openGate` here because `open` is a Lean keyword): set
the gate open, persist the flag, rehydrate any persisted queue, then forward
every entry of the in-memory queue — in queue iteration order — to its
captured `forward` continuation subscribing its captured `observer`, and
finally reset the in-memory queue to `{}`.  Note the in-memory flush does
not itself write to the snapshot slot; only a successful rehydration batch
removes it. -/
def openGate (s : DedupeLinkState) (batchSucceeds : Bool) :
    DedupeLinkState × List LinkEvent :=
  let s1 : DedupeLinkState :=
    { s with
      isOpen := true
      storedOpen := if s.hasStorage then some "1" else s.storedOpen }
  let rehydrated := if s.hasStorage then rehydrateQueue s1 batchSucceeds else (s1, [])
  let s2 := rehydrated.1
  let forwards := s2.opQueue.map (fun p => LinkEvent.forwarded p.1 p.2)
  ({ s2 with opQueue := [] }, rehydrated.2 ++ forwards)

/-- `close()`: set the gate closed and persist the flag. -/
def close (s : DedupeLinkState) : DedupeLinkState :=
  { s with
    isOpen := false
    storedOpen := if s.hasStorage then some "0" else s.storedOpen }

/-- What `request(origOperation, forward)` decides to do.  `passThrough op`
stands for returning `forward(op)` directly; `queue key op optimistic`
stands for returning the observable whose subscription enqueues
`{ operation: op, forward, observer, optimisticResponse: optimistic }` under
`key` (the `enqueue` transition above) and whose unsubscription runs
`cancelOperation key`. -/
inductive RequestAction where
  | passThrough (operation : Operation)
  | queue (key : String) (operation : Operation) (optimisticResponse : Option JSValue)

/-- `request(origOperation, forward)`: extract the key; with no key (or a
falsy one) forward straight through; likewise when the gate is open or the
context opts out via `skipQueue`; otherwise queue under the key. -/
def request (isOpen : Bool) (operation : Operation) (cache : TransformCache) :
    Except String RequestAction × TransformCache :=
  match extractKey operation cache with
  | (.error e, cache') => (.error e, cache')
  | (.ok res, cache') =>
    match res.key with
    | none => (.ok (.passThrough res.operation), cache')
    | some key =>
      if key = "" then (.ok (.passThrough res.operation), cache')
      else if isOpen then (.ok (.passThrough res.operation), cache')
      else if res.operation.context.skipQueue then (.ok (.passThrough res.operation), cache')
      else (.ok (.queue key res.operation res.operation.context.optimisticResponse), cache')

/-! ## Specification-side definitions

These definitions transcribe the wording of the spec claims (not the source);
the theorems below relate them to the embedded source functions. -/

/-- The binding of a variable name in the runtime bindings (claim C5:
"variable reference to its binding"). -/
def bindingOf (variables' : Option Bindings) (name : String) : Option JSValue :=
  variables'.bind (fun vars => (vars.find? (fun p => p.1 == name)).map (fun p => p.2))

/-- Claim C5's resolution table: a key-list element resolves to a variable's
binding, an int/float literal's parsed numeric value, or a
string/boolean/enum literal's value. -/
inductive ResolvesTo (variables' : Option Bindings) : ValueNode → JSValue → Prop where
  | variableRef (name : String) (v : JSValue) :
      bindingOf variables' name = some v → ResolvesTo variables' (.varNode name) v
  | intLit (s : String) : ResolvesTo variables' (.intValue s) (.num (jsParseInt s))
  | floatLit (s : String) : ResolvesTo variables' (.floatValue s) (.numRepr s)
  | stringLit (s : String) : ResolvesTo variables' (.stringValue s) (.str s)
  | boolLit (b : Bool) : ResolvesTo variables' (.booleanValue b) (.bool b)
  | enumLit (s : String) : ResolvesTo variables' (.enumValue s) (.str s)

/-- First present element of a list of optional values. -/
def firstSome {α : Type} : List (Option α) → Option α
  | [] => none
  | some x :: _ => some x
  | none :: rest => firstSome rest

/-- Claim C6, per key-list element: an unbound variable reference fails
naming the variable; scalar/enum literals succeed; a list literal, object
literal or any other kind fails naming the kind. -/
def keyElementErrorSpec (variables' : Option Bindings) (v : ValueNode) : Option String :=
  match v with
  | .varNode name =>
      if (bindingOf variables' name).isSome then none
      else some ("No value supplied for variable $" ++ name ++ " used in @serialize key")
  | .intValue _ => none
  | .floatValue _ => none
  | .stringValue _ => none
  | .booleanValue _ => none
  | .enumValue _ => none
  | other =>
      some ("Argument of type " ++ other.kindName ++ " is not allowed in @serialize directive")

/-- Claim C6, whole pipeline: with no serialize directive no error; with one,
a missing `key` argument or a non-list `key` value fails with the message
identifying the directive; otherwise the first failing key-list element (in
authored order) decides the error; no error otherwise. -/
def pipelineErrorSpec (op : OperationDefinition) (variables' : Option Bindings) :
    Option String :=
  match extractDirective op DIRECTIVE_NAME with
  | none => none
  | some dir =>
    match dir.arguments.find? (fun a => a.name == "key") with
    | none => some "The @serialize directive requires a \x27key\x27 argument"
    | some arg =>
      match arg.value with
      | .listValue values => firstSome (values.map (keyElementErrorSpec variables'))
      | _ =>
          some "The @serialize directive\x27s \x27key\x27 argument must be of type List, got Argument"

mutual

/-- Claim C8 as amended: the arguments reachable from a selection are its
directive arguments; a field additionally contributes its own arguments and,
recursively, those of its selection set; the selection sets of non-field
selections are not descended into. -/
def specSelectionArguments : Selection → List Argument
  | .field directives arguments' none => directives.flatMap Directive.arguments ++ arguments'
  | .field directives arguments' (some sels) =>
      directives.flatMap Directive.arguments ++ arguments' ++ specSelectionsArguments sels
  | .fragmentSpread directives => directives.flatMap Directive.arguments
  | .inlineFragment directives _ => directives.flatMap Directive.arguments

/-- Order-preserving flattening of `specSelectionArguments`. -/
def specSelectionsArguments : List Selection → List Argument
  | [] => []
  | s :: rest => specSelectionArguments s ++ specSelectionsArguments rest

end

/-- Claim C8 as amended, document level: each operation or fragment
definition contributes its own directive arguments followed by the arguments
reachable from its selection tree; other definitions contribute nothing. -/
def specDocumentArguments (doc : Document) : List Argument :=
  doc.definitions.flatMap (fun d =>
    match d with
    | .operationDefinition op =>
        op.directives.flatMap Directive.arguments ++ specSelectionsArguments op.selectionSet
    | .fragmentDefinition frag =>
        frag.directives.flatMap Directive.arguments ++ specSelectionsArguments frag.selectionSet
    | .otherDefinition => [])

/-! ## Concrete example values

Closed values used by counterexamples and witnesses. -/

/-- A queue entry (opaque payload handles). -/
def exEntry1 : OperationQueueEntry := ⟨1, 11, 21, none⟩

/-- A distinct queue entry. -/
def exEntry2 : OperationQueueEntry := ⟨2, 12, 22, none⟩

/-- The stored (serialized) form of `exEntry1`. -/
def exStored1 : StoredEntry := ⟨1, none⟩

/-- A closed gate with storage available and nothing queued. -/
def exClosedState : DedupeLinkState := ⟨[], false, true, none, some "0"⟩

/-- A closed gate holding `exEntry1` under key `k1`, with the matching
persisted snapshot. -/
def exQueuedState : DedupeLinkState :=
  ⟨[("k1", exEntry1)], false, true, some [("k1", exStored1)], some "0"⟩

/-- A document whose single operation carries no directives. -/
def exNoDirDoc : Document := ⟨[.operationDefinition ⟨none, [], [.field [] [] none]⟩]⟩

/-- A reference to `exNoDirDoc`. -/
def exNoDirRef : DocRef := ⟨10, exNoDirDoc⟩

/-- An operation over `exNoDirDoc` whose context carries a truthy
`serializationKey` override. -/
def exOverrideOp : Operation := ⟨⟨4, exNoDirDoc⟩, some [], ⟨some "k", false, none⟩⟩

/-- An operation over `exNoDirDoc` with a plain context (no override, no
opt-out). -/
def exPlainOp : Operation := ⟨exNoDirRef, some [], ⟨none, false, none⟩⟩

/-- A `@serialize` directive without any arguments. -/
def exSerializeNoKey : Directive := ⟨"serialize", []⟩

/-- The operation definition carrying `exSerializeNoKey`. -/
def exNoKeyOpDef : OperationDefinition := ⟨none, [exSerializeNoKey], [.field [] [] none]⟩

/-- The document around `exNoKeyOpDef`. -/
def exNoKeyDoc : Document := ⟨[.operationDefinition exNoKeyOpDef]⟩

/-- An operation over `exNoKeyDoc` with a plain context. -/
def exNoKeyOp : Operation := ⟨⟨6, exNoKeyDoc⟩, some [], ⟨none, false, none⟩⟩

/-- `@serialize(key: [$v])`. -/
def exKeyDir : Directive := ⟨"serialize", [⟨"key", .listValue [.varNode "v"]⟩]⟩

/-- The selection tree `... on T { f(x: $v) }`: a field argument referencing
`$v` nested under an inline fragment. -/
def exInlineSelections : List Selection :=
  [.inlineFragment [] [.field [] [⟨"x", .varNode "v"⟩] none]]

/-- The operation definition declaring `$v`, annotated with
`@serialize(key: [$v])`, whose selection tree references `$v` only inside an
inline fragment. -/
def exInlineOpDef : OperationDefinition := ⟨some [⟨"v"⟩], [exKeyDir], exInlineSelections⟩

/-- The document around `exInlineOpDef`. -/
def exInlineFragmentDoc : Document := ⟨[.operationDefinition exInlineOpDef]⟩

/-- A document whose only argument sits on a field nested under an inline
fragment. -/
def exInlineArgDoc : Document :=
  ⟨[.operationDefinition ⟨none, [], [.inlineFragment [] [.field [] [⟨"x", .intValue "1"⟩] none]]⟩]⟩

/-- The key list `[1, "a", true]`. -/
def exKeyList : List ValueNode := [.intValue "1", .stringValue "a", .booleanValue true]

/-- The resolved values of `exKeyList`. -/
def exResolved : List JSValue := [.num 1, .str "a", .bool true]

def specStrippedDocument (doc : Document) (dir : Directive) : Document :=
  updateFirstOperationDefinition doc (fun o =>
    { o with directives := o.directives.filter (fun node => node != dir) })

def specRewrittenOperation (doc : Document) (op : OperationDefinition) (dir : Directive) :
    OperationDefinition :=
  { variableDefinitions := op.variableDefinitions.map (fun defs =>
      defs.filter (fun d =>
        !((getVariablesFromArguments dir.arguments).contains d.variableName) ||
        (getVariablesFromArguments (getAllArgumentsFromDocument
          (specStrippedDocument doc dir))).contains d.variableName)),
    directives := op.directives.filter (fun node => node != dir),
    selectionSet := op.selectionSet }


/-! # Helper lemmas -/

theorem foldl_append_eq_flatten {α : Type} (l : List (List α)) (init : List α) :
    l.foldl (fun a b => a ++ b) init = init ++ l.flatten := by
  induction l generalizing init with
  | nil => simp
  | cons x xs ih => simp [ih, List.append_assoc]

theorem map_fst_setKey (q : List (String × OperationQueueEntry)) (k : String)
    (e : OperationQueueEntry) :
    (setKey q k e).map Prod.fst =
      if q.any (fun p => p.1 == k) then q.map Prod.fst else q.map Prod.fst ++ [k] := by
  unfold setKey
  split
  · simp only [List.map_map]
    apply List.map_congr_left
    intro p _
    by_cases h : p.1 = k <;> simp [h]
  · simp

theorem nodup_keys_setKey (q : List (String × OperationQueueEntry)) (k : String)
    (e : OperationQueueEntry) (h : (q.map Prod.fst).Nodup) :
    ((setKey q k e).map Prod.fst).Nodup := by
  rw [map_fst_setKey]
  split
  · exact h
  · rename_i hany
    have hk : k ∉ q.map Prod.fst := by
      intro hmem
      apply hany
      rw [List.any_eq_true]
      obtain ⟨p, hp, hfst⟩ := List.mem_map.mp hmem
      exact ⟨p, hp, by simp [hfst]⟩
    simp [List.nodup_append, h, hk]

theorem find?_replace_of_any (q : List (String × OperationQueueEntry)) (k : String)
    (e : OperationQueueEntry) (hany : q.any (fun p => p.1 == k) = true) :
    (q.map (fun p => if p.1 == k then (k, e) else p)).find? (fun p => p.1 == k) =
      some (k, e) := by
  induction q with
  | nil => simp at hany
  | cons a q ih =>
      by_cases h : a.1 = k
      · simp [h]
      · have hany' : q.any (fun p => p.1 == k) = true := by
          simpa [List.any_cons, h] using hany
        simpa [h] using ih hany'

theorem find?_append_of_not_any (q : List (String × OperationQueueEntry)) (k : String)
    (e : OperationQueueEntry) (hany : q.any (fun p => p.1 == k) = false) :
    (q ++ [(k, e)]).find? (fun p => p.1 == k) = some (k, e) := by
  induction q with
  | nil => simp
  | cons a q ih =>
      have h1 : ¬(a.1 = k) := by
        intro h
        simp [List.any_cons, h] at hany
      have h2 : q.any (fun p => p.1 == k) = false := by
        simpa [List.any_cons, h1] using hany
      simpa [List.find?_cons, h1] using ih h2

theorem lookupEntry_setKey_self (q : List (String × OperationQueueEntry)) (k : String)
    (e : OperationQueueEntry) : lookupEntry (setKey q k e) k = some e := by
  unfold lookupEntry setKey
  by_cases hany : q.any (fun p => p.1 == k) = true
  · rw [if_pos hany, find?_replace_of_any q k e hany]
    rfl
  · simp only [Bool.not_eq_true] at hany
    rw [if_neg (by simp [hany]), find?_append_of_not_any q k e hany]
    rfl

theorem count_eq_zero_of_key_not_mem (q : List (String × OperationQueueEntry))
    (k : String) (e : OperationQueueEntry) (h : k ∉ q.map Prod.fst) :
    q.count (k, e) = 0 := by
  rw [List.count_eq_zero]
  intro hmem
  exact h (List.mem_map_of_mem Prod.fst hmem)

theorem count_pair_of_nodup (q : List (String × OperationQueueEntry))
    (hnd : (q.map Prod.fst).Nodup) (k : String) (e : OperationQueueEntry) :
    q.count (k, e) = if lookupEntry q k = some e then 1 else 0 := by
  induction q with
  | nil => simp [lookupEntry]
  | cons a q ih =>
      obtain ⟨a1, a2⟩ := a
      rw [List.map_cons, List.nodup_cons] at hnd
      obtain ⟨ha, hq⟩ := hnd
      by_cases h : a1 = k
      · subst h
        have hfind : ((a1, a2) :: q).find? (fun p => p.1 == a1) = some (a1, a2) :=
          List.find?_cons_of_pos _ (by simp)
        have hlook : lookupEntry ((a1, a2) :: q) a1 = some a2 := by
          simp [lookupEntry, hfind]
        have h0 : q.count (a1, e) = 0 := count_eq_zero_of_key_not_mem q a1 e ha
        rw [hlook, List.count_cons, h0]
        by_cases h2 : a2 = e
        · subst h2
          simp
        · have h2' : ¬(e = a2) := fun hh => h2 hh.symm
          simp [h2, h2']
      · have hfind : ((a1, a2) :: q).find? (fun p => p.1 == k) = q.find? (fun p => p.1 == k) :=
          List.find?_cons_of_neg _ (by simp [h])
        have hlook : lookupEntry ((a1, a2) :: q) k = lookupEntry q k := by
          simp [lookupEntry, hfind]
        have h' : ¬(k = a1) := fun hh => h hh.symm
        rw [hlook, List.count_cons]
        simpa [h, h'] using ih hq

theorem lookup_eq_some_of_mem_nodup (q : List (String × OperationQueueEntry))
    (hnd : (q.map Prod.fst).Nodup) (k : String) (e : OperationQueueEntry)
    (hmem : (k, e) ∈ q) : lookupEntry q k = some e := by
  have hcount := count_pair_of_nodup q hnd k e
  have hpos : 0 < q.count (k, e) := List.count_pos_iff.mpr hmem
  by_contra h
  simp [h] at hcount
  omega

theorem count_forwarded_in_mutated (l : List (String × StoredEntry)) (k : String)
    (e : OperationQueueEntry) :
    (l.map (fun p => LinkEvent.mutated p.2)).count (LinkEvent.forwarded k e) = 0 := by
  rw [List.count_eq_zero]
  simp [List.mem_map]

theorem count_forwarded_in_forwards (q : List (String × OperationQueueEntry))
    (k : String) (e : OperationQueueEntry) :
    (q.map (fun p => LinkEvent.forwarded p.1 p.2)).count (LinkEvent.forwarded k e) =
      q.count (k, e) := by
  induction q with
  | nil => simp
  | cons a q ih =>
      obtain ⟨a1, a2⟩ := a
      by_cases h : (a1, a2) = (k, e)
      · rw [h]
        simp [List.count_cons, ih]
      · have h1 : ¬(a1 = k ∧ a2 = e) := by
          intro hh
          exact h (by rw [hh.1, hh.2])
        have h2 : ¬(k = a1 ∧ e = a2) := fun hh => h1 ⟨hh.1.symm, hh.2.symm⟩
        simp [List.count_cons, ih, h1, h2]

theorem filter_ne_key_eq_self_of_lookup_none (q : List (String × OperationQueueEntry))
    (k : String) (h : lookupEntry q k = none) :
    q.filter (fun p => p.1 != k) = q := by
  rw [List.filter_eq_self]
  intro p hp
  have hfind : q.find? (fun p => p.1 == k) = none := by
    cases hf : q.find? (fun p => p.1 == k) with
    | none => rfl
    | some x =>
        rw [lookupEntry, hf] at h
        simp at h
  have := List.find?_eq_none.mp hfind p hp
  simpa using this

theorem openGate_def (s : DedupeLinkState) (b : Bool) :
    openGate s b =
      ({ opQueue := [], isOpen := true, hasStorage := s.hasStorage,
         storedOps := if s.hasStorage && b then none else s.storedOps,
         storedOpen := if s.hasStorage then some "1" else s.storedOpen },
       (if s.hasStorage then (s.storedOps.getD []).map (fun p => LinkEvent.mutated p.2) else [])
         ++ s.opQueue.map (fun p => LinkEvent.forwarded p.1 p.2)) := by
  unfold openGate rehydrateQueue
  by_cases hs : s.hasStorage
  · cases ho : s.storedOps <;> cases b <;> simp [hs, ho]
  · simp [hs]

/-! # Claims about the gate & queue controller -/

/-- After storing under a key already present in a key-nodup queue, exactly
one entry carries that key. -/
theorem countP_key_setKey (q : List (String × OperationQueueEntry)) (k : String)
    (e : OperationQueueEntry)
    (hnd : (q.map Prod.fst).Nodup) (hkmem : k ∈ q.map Prod.fst) :
    (setKey q k e).countP (fun p => p.1 == k) = 1 := by
  have h1 : (setKey q k e).countP (fun p => p.1 == k) =
      ((setKey q k e).map Prod.fst).count k := by
    rw [List.count_eq_countP, List.countP_map]
    rfl
  rw [h1, map_fst_setKey]
  have hany : q.any (fun p => p.1 == k) = true := by
    obtain ⟨p, hp, hfst⟩ := List.mem_map.mp hkmem
    exact List.any_eq_true.mpr ⟨p, hp, by simp [hfst]⟩
  rw [if_pos hany]
  exact List.count_eq_one_of_mem hnd hkmem

/-- C1: for every key the queue holds at most one entry at any instant.
With the gate closed and an entry `e1` already queued under key `k`, a
second request enqueued under `k` replaces and discards `e1`: exactly one
entry remains under `k`, it is the new one, no `forwarded` event for the
superseded `e1` at `k` ever occurs when `open()` later runs (its result sink
is never invoked and its continuation never forwarded), and every surviving
entry of the queue is forwarded exactly once. -/
theorem enqueue_replaces_and_open_forwards_once (s : DedupeLinkState) (k : String)
    (e1 e2 : OperationQueueEntry) (b : Bool)
    (hnd : (s.opQueue.map Prod.fst).Nodup)
    (h1 : lookupEntry s.opQueue k = some e1) (hne : e1 ≠ e2) :
    ((enqueue s k e2).opQueue.countP (fun p => p.1 == k) = 1) ∧
    lookupEntry (enqueue s k e2).opQueue k = some e2 ∧
    ((openGate (enqueue s k e2) b).2.count (LinkEvent.forwarded k e1) = 0) ∧
    (∀ p ∈ (enqueue s k e2).opQueue,
        (openGate (enqueue s k e2) b).2.count (LinkEvent.forwarded p.1 p.2) = 1) := by
  have hq : (enqueue s k e2).opQueue = setKey s.opQueue k e2 := rfl
  have hnd' : ((setKey s.opQueue k e2).map Prod.fst).Nodup := nodup_keys_setKey _ _ _ hnd
  obtain ⟨p0, hfind0, hp0⟩ : ∃ p0, s.opQueue.find? (fun p => p.1 == k) = some p0 ∧ p0.2 = e1 := by
    rw [lookupEntry] at h1
    cases hf : s.opQueue.find? (fun p => p.1 == k) with
    | none => rw [hf] at h1; simp at h1
    | some x =>
        rw [hf] at h1
        exact ⟨x, rfl, by simpa using h1⟩
  have hp0k : p0.1 = k := by
    have := List.find?_some hfind0
    simpa using this
  have hp0mem : p0 ∈ s.opQueue := List.mem_of_find?_eq_some hfind0
  have hkmem : k ∈ s.opQueue.map Prod.fst := List.mem_map.mpr ⟨p0, hp0mem, hp0k⟩
  -- the events of the flush
  have hevents := openGate_def (enqueue s k e2) b
  have hstate : (enqueue s k e2).opQueue = setKey s.opQueue k e2 := rfl
  refine ⟨?_, ?_, ?_, ?_⟩
  · rw [hq]
    exact countP_key_setKey s.opQueue k e2 hnd hkmem
  · rw [hq]
    exact lookupEntry_setKey_self _ _ _
  · rw [hevents]
    rw [List.count_append]
    have hmut : ((if (enqueue s k e2).hasStorage then
        (((enqueue s k e2).storedOps.getD []).map (fun p => LinkEvent.mutated p.2)) else
        [])).count (LinkEvent.forwarded k e1) = 0 := by
      split
      · exact count_forwarded_in_mutated _ _ _
      · simp
    rw [hmut, hstate, count_forwarded_in_forwards]
    have := count_pair_of_nodup (setKey s.opQueue k e2) hnd' k e1
    rw [lookupEntry_setKey_self] at this
    have hne' : ¬(some e2 = some e1) := by
      intro hh
      exact hne (by simpa using hh.symm)
    simpa [hne'] using this
  · intro p hp
    rw [hevents, List.count_append]
    have hmut : ((if (enqueue s k e2).hasStorage then
        (((enqueue s k e2).storedOps.getD []).map (fun p => LinkEvent.mutated p.2)) else
        [])).count (LinkEvent.forwarded p.1 p.2) = 0 := by
      split
      · exact count_forwarded_in_mutated _ _ _
      · simp
    rw [hmut, hstate, count_forwarded_in_forwards]
    rw [hstate] at hp
    have hlook := lookup_eq_some_of_mem_nodup (setKey s.opQueue k e2) hnd' p.1 p.2 (by simpa using hp)
    have := count_pair_of_nodup (setKey s.opQueue k e2) hnd' p.1 p.2
    simpa [hlook] using this

/-- C2 counterexample: the claim says cancelling a queued entry that was
already superseded by a later entry under the same key is a no-op and in
particular does not remove the superseding entry.  In the code
`cancelOperation` deletes by key: after `exEntry1` under `k1` is superseded
by `exEntry2`, cancelling (which the first handle's unsubscribe triggers
with the same key) removes `exEntry2` — the queue is left empty. -/
theorem cancel_after_supersede_removes_superseding_cex :
    exEntry1 ≠ exEntry2 ∧
    lookupEntry (enqueue (enqueue exClosedState "k1" exEntry1) "k1" exEntry2).opQueue "k1" =
      some exEntry2 ∧
    (cancelOperation (enqueue (enqueue exClosedState "k1" exEntry1) "k1" exEntry2) "k1").opQueue
      = [] ∧
    lookupEntry
      (cancelOperation (enqueue (enqueue exClosedState "k1" exEntry1) "k1" exEntry2) "k1").opQueue
      "k1" = none :=
  ⟨by decide, rfl, rfl, rfl⟩

/-- C2 as amended: cancelling removes whatever entry currently sits under
the key (if any) from the queue map and re-persists the snapshot
unconditionally; when the key is no longer present (entry flushed or already
cancelled) the queue map is unchanged. -/
theorem cancelOperation_spec (s : DedupeLinkState) (k : String) :
    (cancelOperation s k).opQueue = s.opQueue.filter (fun p => p.1 != k) ∧
    ((cancelOperation s k).storedOps =
      if s.hasStorage then some (stripQueue ((cancelOperation s k).opQueue)) else s.storedOps) ∧
    (lookupEntry s.opQueue k = none → (cancelOperation s k).opQueue = s.opQueue) := by
  refine ⟨rfl, ?_, ?_⟩
  · by_cases hs : s.hasStorage <;> simp [cancelOperation, hs]
  · intro h
    have := filter_ne_key_eq_self_of_lookup_none s.opQueue k h
    simpa [cancelOperation] using this

/-- Witness for `cancelOperation_spec` at a concrete state whose queue does
not contain the cancelled key. -/
theorem cancelOperation_spec_witness :
    (cancelOperation (enqueue exClosedState "k1" exEntry1) "k2").opQueue =
      (enqueue exClosedState "k1" exEntry1).opQueue := by
  have h := cancelOperation_spec (enqueue exClosedState "k1" exEntry1) "k2"
  exact h.2.2 (by decide)

/-- C3 counterexample: the claim says that after `open()` both the
in-memory queue map and the persisted snapshot slot are cleared.  When the
rehydration batch fails, the code's `catch` leaves the snapshot slot
untouched: after `open()` on `exQueuedState` with a failing batch the slot
still holds the old snapshot, although every queued entry was forwarded and
the in-memory queue was cleared. -/
theorem open_keeps_snapshot_on_failed_rehydration_cex :
    (openGate exQueuedState false).2 =
      [LinkEvent.mutated exStored1, LinkEvent.forwarded "k1" exEntry1] ∧
    (openGate exQueuedState false).1.opQueue = [] ∧
    (openGate exQueuedState false).1.storedOps = some [("k1", exStored1)] ∧
    (openGate exQueuedState false).1.storedOps ≠ none :=
  ⟨rfl, rfl, rfl, by decide⟩

/-- C3 as amended: `open()` forwards every entry of the in-memory queue
map, in queue iteration order, to its captured continuation subscribing its
captured result channel (the `forwarded` events, after the rehydration
`mutated` events), and clears the in-memory queue map; the persisted
snapshot slot is cleared only when storage is available and the rehydration
batch succeeds — on a failed batch it keeps its previous contents. -/
theorem openGate_spec (s : DedupeLinkState) (b : Bool) :
    (openGate s b).1.opQueue = [] ∧
    (openGate s b).1.isOpen = true ∧
    (openGate s b).2 =
      (if s.hasStorage then (s.storedOps.getD []).map (fun p => LinkEvent.mutated p.2) else [])
        ++ s.opQueue.map (fun p => LinkEvent.forwarded p.1 p.2) ∧
    (openGate s b).1.storedOps = (if s.hasStorage && b then none else s.storedOps) := by
  rw [openGate_def]
  exact ⟨rfl, rfl, rfl, rfl⟩

/-- C9: when the persisted queue snapshot is non-empty, `open()` re-issues
every stored entry as a mutation through the client (one `mutated` event per
entry, before the queue flush); if the whole batch succeeds the snapshot
slot is cleared, and if it fails the slot is left untouched.  The error is
only logged: `openGate` is a total function whose state and events are
defined for both outcomes, mirroring the source's `catch` which never
rethrows out of `open()`. -/
theorem rehydration_batch_spec (s : DedupeLinkState)
    (entries : List (String × StoredEntry)) (b : Bool)
    (hs : s.hasStorage = true) (hstored : s.storedOps = some entries) (_hne : entries ≠ []) :
    (openGate s b).2 =
      entries.map (fun p => LinkEvent.mutated p.2)
        ++ s.opQueue.map (fun p => LinkEvent.forwarded p.1 p.2) ∧
    (b = true → (openGate s b).1.storedOps = none) ∧
    (b = false → (openGate s b).1.storedOps = some entries) := by
  rw [openGate_def]
  refine ⟨by simp [hs, hstored], ?_, ?_⟩
  · intro hb
    simp [hs, hstored, hb]
  · intro hb
    simp [hs, hstored, hb]

/-- Witness for `rehydration_batch_spec` at a concrete snapshot, for both
batch outcomes. -/
theorem rehydration_batch_spec_witness :
    (openGate exQueuedState true).1.storedOps = none ∧
    (openGate exQueuedState false).1.storedOps = some [("k1", exStored1)] := by
  have h1 := rehydration_batch_spec exQueuedState [("k1", exStored1)] true rfl rfl (by decide)
  have h2 := rehydration_batch_spec exQueuedState [("k1", exStored1)] false rfl rfl (by decide)
  exact ⟨h1.2.1 rfl, h2.2.2 rfl⟩

/-- Witness for `enqueue_replaces_and_open_forwards_once` at a concrete
queued state. -/
theorem enqueue_replaces_and_open_forwards_once_witness :
    lookupEntry (enqueue exQueuedState "k1" exEntry2).opQueue "k1" = some exEntry2 ∧
    (openGate (enqueue exQueuedState "k1" exEntry2) true).2.count
      (LinkEvent.forwarded "k1" exEntry1) = 0 := by
  have h := enqueue_replaces_and_open_forwards_once exQueuedState "k1" exEntry1 exEntry2 true
    (by decide) (by decide) (by decide)
  exact ⟨h.2.1, h.2.2.1⟩

/-! # Claims about the extraction pipeline -/

/-- C4 counterexample: an operation whose document carries no serialize
directive but whose context carries a truthy serializationKey override is
queued when the gate is closed, not forwarded straight through. -/
theorem request_queues_override_key_without_directive_cex :
    extractDirective ⟨none, [], [.field [] [] none]⟩ DIRECTIVE_NAME = none ∧
    (request false exOverrideOp []).1 = .ok (.queue "k" exOverrideOp none) ∧
    (request false exOverrideOp []).1 ≠ .ok (.passThrough exOverrideOp) := by
  refine ⟨rfl, rfl, ?_⟩
  intro h
  have h2 := Except.ok.inj h
  exact RequestAction.noConfusion h2

/-- C4 as amended: for an operation whose document carries no serialize
directive AND whose context carries no truthy serializationKey override,
`extractDirectiveArguments` returns the original document unchanged with no
key expression, and `request` forwards the original operation straight to
the downstream continuation regardless of whether the gate is open or
closed (the cache-miss hypothesis reflects that no-directive documents are
never inserted in the transform cache). -/
theorem request_passes_through_without_directive (operation : Operation)
    (cache : TransformCache) (op : OperationDefinition)
    (hkey : truthyString operation.context.serializationKey = none)
    (hmiss : lookupCache cache operation.query.refId = none)
    (hcheck : checkDocument operation.query.node = .ok ())
    (hop : getOperationDefinition operation.query.node = some op)
    (hdir : extractDirective op DIRECTIVE_NAME = none) :
    (extractDirectiveArguments operation.query cache).1 = .ok ⟨operation.query.node, none⟩ ∧
    ∀ isOpen : Bool, (request isOpen operation cache).1 = .ok (.passThrough operation) := by
  have hext : extractDirectiveArguments operation.query cache =
      (.ok ⟨operation.query.node, none⟩, cache) := by
    unfold extractDirectiveArguments
    simp [hmiss, hcheck, hop, hdir]
  have hkey2 : extractKey operation cache = (.ok ⟨operation, none⟩, cache) := by
    unfold extractKey
    simp [hkey, hext]
  refine ⟨by rw [hext], ?_⟩
  intro isOpen
  unfold request
  simp [hkey2]

/-- Witness for `request_passes_through_without_directive` at a concrete
plain operation, with the gate open and closed. -/
theorem request_passes_through_without_directive_witness :
    (request true exPlainOp []).1 = .ok (.passThrough exPlainOp) ∧
    (request false exPlainOp []).1 = .ok (.passThrough exPlainOp) := by
  have h := request_passes_through_without_directive exPlainOp []
    ⟨none, [], [.field [] [] none]⟩ rfl rfl rfl rfl rfl
  exact ⟨h.2 true, h.2 false⟩

/-- C10 counterexample: the claim says memoization holds for every
document, including one with no serialize directive.  A first call on the
directive-free `exNoDirDoc` leaves the cache empty — nothing was stored
under its reference id, so a repeat call cannot return a cached result and
reruns the tree work instead. -/
theorem no_directive_document_not_cached_cex :
    (extractDirectiveArguments exNoDirRef []).1 = .ok ⟨exNoDirDoc, none⟩ ∧
    (extractDirectiveArguments exNoDirRef []).2 = [] ∧
    lookupCache ((extractDirectiveArguments exNoDirRef []).2) exNoDirRef.refId = none :=
  ⟨rfl, rfl, rfl⟩

/-- C10 as amended: a cache hit returns the cached result with the cache
untouched, for every cached value — even one a recomputation would not
produce, which is exactly what "returns the cached result without
recomputing" means; a successful directive-bearing extraction stores its
result under the document's reference id and an immediately repeated call
returns it; a directive-free extraction leaves the cache unchanged (it is
NOT memoized). -/
theorem extractDirectiveArguments_memoization (docRef : DocRef) (cache : TransformCache) :
    (∀ cached, lookupCache cache docRef.refId = some cached →
        extractDirectiveArguments docRef cache = (.ok cached, cache)) ∧
    (∀ op dir arg values,
        lookupCache cache docRef.refId = none →
        checkDocument docRef.node = .ok () →
        getOperationDefinition docRef.node = some op →
        extractDirective op DIRECTIVE_NAME = some dir →
        dir.arguments.find? (fun d => d.name == "key") = some arg →
        arg.value = .listValue values →
        extractDirectiveArguments docRef cache =
          (.ok ⟨removeDirectiveFromDocument docRef.node (some dir), some values⟩,
            (docRef.refId, ⟨removeDirectiveFromDocument docRef.node (some dir), some values⟩)
              :: cache) ∧
        extractDirectiveArguments docRef
            ((docRef.refId, ⟨removeDirectiveFromDocument docRef.node (some dir), some values⟩)
              :: cache) =
          (.ok ⟨removeDirectiveFromDocument docRef.node (some dir), some values⟩,
            (docRef.refId, ⟨removeDirectiveFromDocument docRef.node (some dir), some values⟩)
              :: cache)) ∧
    (∀ op,
        lookupCache cache docRef.refId = none →
        checkDocument docRef.node = .ok () →
        getOperationDefinition docRef.node = some op →
        extractDirective op DIRECTIVE_NAME = none →
        extractDirectiveArguments docRef cache = (.ok ⟨docRef.node, none⟩, cache)) := by
  refine ⟨?_, ?_, ?_⟩
  · intro cached hc
    unfold extractDirectiveArguments
    rw [hc]
  · intro op dir arg values hmiss hcheck hop hdir hfind hval
    constructor
    · unfold extractDirectiveArguments
      simp [hmiss, hcheck, hop, hdir, hfind, hval]
    · have hhit : lookupCache
          ((docRef.refId, ⟨removeDirectiveFromDocument docRef.node (some dir), some values⟩)
            :: cache) docRef.refId =
          some ⟨removeDirectiveFromDocument docRef.node (some dir), some values⟩ := by
        simp [lookupCache]
      unfold extractDirectiveArguments
      rw [hhit]
  · intro op hmiss hcheck hop hdir
    unfold extractDirectiveArguments
    simp [hmiss, hcheck, hop, hdir]

/-- Witness for `extractDirectiveArguments_memoization`: a poisoned cache
entry for a directive-bearing document is returned as-is, showing the hit
path performs no recomputation. -/
theorem extractDirectiveArguments_memoization_witness :
    extractDirectiveArguments ⟨3, exInlineFragmentDoc⟩ [(3, ⟨exNoDirDoc, none⟩)] =
      (.ok ⟨exNoDirDoc, none⟩, [(3, ⟨exNoDirDoc, none⟩)]) :=
  (extractDirectiveArguments_memoization ⟨3, exInlineFragmentDoc⟩
    [(3, ⟨exNoDirDoc, none⟩)]).1 ⟨exNoDirDoc, none⟩ rfl

/-- C8 counterexample: the claim says the walker collects the arguments of
fields nested under non-field selections such as inline fragments.  In
`exInlineArgDoc` the only argument in the whole document sits on a field
inside an inline fragment, and the document-level walk returns the empty
sequence — `getAllArgumentsFromSelection` does not descend into an inline
fragment's selection set, although the nested field itself carries the
argument. -/
theorem walker_misses_inline_fragment_arguments_cex :
    getAllArgumentsFromDocument exInlineArgDoc = [] ∧
    getAllArgumentsFromSelection (.field [] [⟨"x", .intValue "1"⟩] none) =
      [⟨"x", .intValue "1"⟩] ∧
    ([] : List Argument) ≠ [⟨"x", .intValue "1"⟩] :=
  ⟨rfl, rfl, by decide⟩

theorem getAllArgumentsFromDirectives_eq (ds : List Directive) :
    getAllArgumentsFromDirectives (some ds) = ds.flatMap Directive.arguments := by
  show (ds.map (fun d => d.arguments)).foldl (fun a b => a ++ b) [] =
    ds.flatMap Directive.arguments
  rw [foldl_append_eq_flatten, List.nil_append]
  rfl

mutual

theorem getAllArgumentsFromSelection_eq :
    ∀ s : Selection, getAllArgumentsFromSelection s = specSelectionArguments s
  | .field ds args none => by
      simp [getAllArgumentsFromSelection, specSelectionArguments, getAllArgumentsFromDirectives_eq]
  | .field ds args (some sels) => by
      simp [getAllArgumentsFromSelection, specSelectionArguments, getAllArgumentsFromDirectives_eq,
        getAllArgumentsFromSelections_eq sels]
  | .fragmentSpread ds => by
      simp [getAllArgumentsFromSelection, specSelectionArguments, getAllArgumentsFromDirectives_eq]
  | .inlineFragment ds sels => by
      simp [getAllArgumentsFromSelection, specSelectionArguments, getAllArgumentsFromDirectives_eq]

theorem getAllArgumentsFromSelections_eq :
    ∀ l : List Selection, getAllArgumentsFromSelections l = specSelectionsArguments l
  | [] => by simp [getAllArgumentsFromSelections, specSelectionsArguments]
  | s :: rest => by
      simp [getAllArgumentsFromSelections, specSelectionsArguments,
        getAllArgumentsFromSelection_eq s, getAllArgumentsFromSelections_eq rest]

end

/-- C8 as amended: `getAllArgumentsFromDocument` returns the flat,
order-preserving sequence of arguments reachable from each definition's own
directives and, recursively, from every field's directives, arguments and
selection set — but the selection sets of non-field selections (fragment
spreads have none; inline fragments' are skipped) are NOT descended into,
so only the directive arguments of non-field selections are collected; an
absent or empty selection set yields the empty sequence. -/
theorem getAllArgumentsFromDocument_spec :
    (∀ doc : Document, getAllArgumentsFromDocument doc = specDocumentArguments doc) ∧
    getAllArgumentsFromSelectionSet none = [] ∧
    getAllArgumentsFromSelectionSet (some []) = [] := by
  refine ⟨?_, rfl, rfl⟩
  intro doc
  unfold getAllArgumentsFromDocument specDocumentArguments
  rw [foldl_append_eq_flatten, List.nil_append, List.flatMap]
  congr 1
  apply List.map_congr_left
  intro d _
  cases d with
  | operationDefinition op =>
      simp [getAllArgumentsFromOperation, getAllArgumentsFromSelectionSet,
        getAllArgumentsFromDirectives_eq, getAllArgumentsFromSelections_eq]
  | fragmentDefinition frag =>
      simp [getAllArgumentsFromFragment, getAllArgumentsFromSelectionSet,
        getAllArgumentsFromDirectives_eq, getAllArgumentsFromSelections_eq]
  | otherDefinition => rfl

theorem intercalate_go_append (s a b : String) (l : List String) :
    String.intercalate.go (a ++ b) s l = a ++ String.intercalate.go b s l := by
  induction l generalizing b with
  | nil => simp [String.intercalate.go]
  | cons c cs ih =>
      simp only [String.intercalate.go]
      rw [show a ++ b ++ s ++ c = a ++ (b ++ s ++ c) by simp [String.append_assoc]]
      exact ih (b ++ s ++ c)

theorem intercalate_cons_cons (x y : String) (l : List String) :
    String.intercalate "," (x :: y :: l) = x ++ "," ++ String.intercalate "," (y :: l) := by
  simp only [String.intercalate, String.intercalate.go]
  rw [show x ++ "," ++ y = (x ++ ",") ++ y by simp [String.append_assoc]]
  rw [intercalate_go_append "," (x ++ ",") y l]

theorem stringifyElems_eq_intercalate (vs : List JSValue) :
    stringifyElems vs = String.intercalate "," (vs.map JSValue.stringify) := by
  induction vs with
  | nil => rfl
  | cons v rest ih =>
      cases rest with
      | nil => rfl
      | cons w r =>
          rw [show stringifyElems (v :: w :: r) =
              JSValue.stringify v ++ "," ++ stringifyElems (w :: r) from rfl]
          rw [ih, List.map_cons, List.map_cons, List.map_cons, intercalate_cons_cons]

theorem valueForArgument_of_resolvesTo (variables' : Option Bindings) (v : ValueNode)
    (jv : JSValue) (h : ResolvesTo variables' v jv) :
    valueForArgument v variables' = .ok jv := by
  cases h with
  | variableRef name jv hb =>
      unfold valueForArgument getVariableOrDie
      unfold bindingOf at hb
      cases hv : variables' with
      | none => rw [hv] at hb; simp at hb
      | some vars =>
          rw [hv] at hb
          replace hb : (vars.find? (fun p => p.1 == name)).map (fun p => p.2) = some jv := hb
          simp only [hv]
          cases hf : vars.find? (fun p => p.1 == name) with
          | none => rw [hf] at hb; simp at hb
          | some p =>
              rw [hf] at hb
              simp at hb
              show Except.ok p.2 = Except.ok jv
              rw [hb]
  | intLit s => rfl
  | floatLit s => rfl
  | stringLit s => rfl
  | boolLit b => rfl
  | enumLit s => rfl

/-- C5: `materializeKey` resolves each element of the key list in authored
order — a variable reference to its binding, an integer/float literal to
its parsed numeric value, a string/boolean/enum literal to its literal
value — and returns the JSON-array serialization of the resolved values in
that same order, not normalized or sorted (the comma-joined serializations
wrapped in brackets). -/
theorem materializeKey_resolves_in_order (values : List ValueNode)
    (variables' : Option Bindings) (resolved : List JSValue)
    (h : List.Forall₂ (ResolvesTo variables') values resolved) :
    materializeKey values variables' =
      .ok ("[" ++ String.intercalate "," (resolved.map JSValue.stringify) ++ "]") := by
  have hmap : values.mapM (fun val => valueForArgument val variables') = .ok resolved := by
    induction h with
    | nil => rfl
    | cons hres hrest ih =>
        rw [List.mapM_cons, valueForArgument_of_resolvesTo _ _ _ hres, ih]
        rfl
  unfold materializeKey
  rw [hmap]
  show Except.ok (jsonStringifyArray resolved) = _
  rw [jsonStringifyArray, stringifyElems_eq_intercalate]

/-- Witness for `materializeKey_resolves_in_order`:
`materialize([1, "a", true], {})` returns exactly `[1,"a",true]`. -/
theorem materializeKey_resolves_in_order_witness :
    materializeKey exKeyList (some []) = .ok "[1,\"a\",true]" := by
  have h := materializeKey_resolves_in_order exKeyList (some []) exResolved
    (List.Forall₂.cons (ResolvesTo.intLit "1")
      (List.Forall₂.cons (ResolvesTo.stringLit "a")
        (List.Forall₂.cons (ResolvesTo.boolLit true) List.Forall₂.nil)))
  exact h.trans (by rfl)

theorem badKindMsg_eq (k : String) :
    "Argument of type " ++ k ++ " is not allowed in @" ++ DIRECTIVE_NAME ++ " directive" =
      "Argument of type " ++ k ++ " is not allowed in @serialize directive" := by
  simp only [String.append_assoc]
  congr 1

theorem valueForArgument_error_iff (v : ValueNode) (variables' : Option Bindings)
    (e : String) :
    valueForArgument v variables' = .error e ↔ keyElementErrorSpec variables' v = some e := by
  cases v with
  | varNode name =>
      simp only [valueForArgument, keyElementErrorSpec, getVariableOrDie, bindingOf]
      cases variables' with
      | none => simp
      | some vars =>
          cases hf : vars.find? (fun p => p.1 == name) with
          | none => simp [hf]
          | some p => simp [hf]
  | intValue s => simp [valueForArgument, keyElementErrorSpec]
  | floatValue s => simp [valueForArgument, keyElementErrorSpec]
  | stringValue s => simp [valueForArgument, keyElementErrorSpec]
  | booleanValue b => simp [valueForArgument, keyElementErrorSpec]
  | enumValue s => simp [valueForArgument, keyElementErrorSpec]
  | listValue vs =>
      simp only [valueForArgument, keyElementErrorSpec]
      rw [badKindMsg_eq]
      simp
  | objectValue fs =>
      simp only [valueForArgument, keyElementErrorSpec]
      rw [badKindMsg_eq]
      simp

theorem materializeKey_error_iff (values : List ValueNode) (variables' : Option Bindings) :
    ∀ e : String, materializeKey values variables' = .error e ↔
      firstSome (values.map (keyElementErrorSpec variables')) = some e := by
  induction values with
  | nil =>
      intro e
      have h0 : materializeKey ([] : List ValueNode) variables' = .ok (jsonStringifyArray []) :=
        rfl
      rw [h0]
      simp [firstSome]
  | cons v rest ih =>
      intro e
      rw [List.map_cons]
      cases hv : keyElementErrorSpec variables' v with
      | some msg =>
          have hverr : valueForArgument v variables' = .error msg :=
            (valueForArgument_error_iff v variables' msg).mpr hv
          have hmk : materializeKey (v :: rest) variables' = .error msg := by
            unfold materializeKey
            rw [List.mapM_cons, hverr]
            rfl
          rw [hmk, show firstSome (some msg :: rest.map (keyElementErrorSpec variables')) =
            some msg from rfl]
          simp
      | none =>
          cases hva : valueForArgument v variables' with
          | error m =>
              exfalso
              have := (valueForArgument_error_iff v variables' m).mp hva
              rw [hv] at this
              exact Option.noConfusion this
          | ok w =>
              rw [show firstSome (none :: rest.map (keyElementErrorSpec variables')) =
                firstSome (rest.map (keyElementErrorSpec variables')) from rfl, ← ih e]
              cases hrest : rest.mapM (fun val => valueForArgument val variables') with
              | error m =>
                  have h1 : materializeKey (v :: rest) variables' = .error m := by
                    unfold materializeKey
                    rw [List.mapM_cons, hva, hrest]
                    rfl
                  have h2 : materializeKey rest variables' = .error m := by
                    unfold materializeKey
                    rw [hrest]
                    rfl
                  rw [h1, h2]
              | ok ws =>
                  have h1 : materializeKey (v :: rest) variables' =
                      .ok (jsonStringifyArray (w :: ws)) := by
                    unfold materializeKey
                    rw [List.mapM_cons, hva, hrest]
                    rfl
                  have h2 : materializeKey rest variables' = .ok (jsonStringifyArray ws) := by
                    unfold materializeKey
                    rw [hrest]
                    rfl
                  rw [h1, h2]
                  simp

/-- C6: on the uncached pipeline over a valid document with an operation
definition and no serializationKey override, `extractKey` raises an error
exactly when the spec-side error table says so: a serialize directive
without a `key` argument or with a non-list `key` value fails with the
message identifying the directive by name; otherwise the first key-list
element (in authored order) that is a list/object/other unsupported kind
fails naming the kind, and an unbound variable reference fails naming the
variable; in every other case no error is raised — never a silent
default. -/
theorem keyPipeline_error_characterization (operation : Operation) (cache : TransformCache)
    (op : OperationDefinition)
    (hkey : truthyString operation.context.serializationKey = none)
    (hmiss : lookupCache cache operation.query.refId = none)
    (hcheck : checkDocument operation.query.node = .ok ())
    (hop : getOperationDefinition operation.query.node = some op) :
    ∀ e : String, (extractKey operation cache).1 = .error e ↔
      pipelineErrorSpec op operation.variables' = some e := by
  intro e
  cases hdir : extractDirective op DIRECTIVE_NAME with
  | none =>
      have hext : extractDirectiveArguments operation.query cache =
          (.ok ⟨operation.query.node, none⟩, cache) := by
        unfold extractDirectiveArguments
        simp [hmiss, hcheck, hop, hdir]
      unfold extractKey pipelineErrorSpec
      simp [hkey, hext, hdir]
  | some dir =>
      cases hfind : dir.arguments.find? (fun d => d.name == "key") with
      | none =>
          have hext : extractDirectiveArguments operation.query cache =
              (.error ("The @" ++ DIRECTIVE_NAME ++ " directive requires a \x27key\x27 argument"),
                cache) := by
            unfold extractDirectiveArguments
            simp [hmiss, hcheck, hop, hdir, hfind]
          unfold extractKey pipelineErrorSpec
          rw [show ("The @" ++ DIRECTIVE_NAME ++ " directive requires a \x27key\x27 argument") =
            "The @serialize directive requires a \x27key\x27 argument" from rfl] at hext
          simp [hkey, hext, hdir, hfind]
      | some arg =>
          cases harg : arg.value with
          | listValue values =>
              have hext : extractDirectiveArguments operation.query cache =
                  (.ok ⟨removeDirectiveFromDocument operation.query.node (some dir), some values⟩,
                    (operation.query.refId,
                      (⟨removeDirectiveFromDocument operation.query.node (some dir),
                        some values⟩ : ExtractResult)) :: cache) := by
                unfold extractDirectiveArguments
                simp [hmiss, hcheck, hop, hdir, hfind, harg]
              unfold extractKey pipelineErrorSpec
              simp only [hkey, hext, hdir, hfind, harg]
              cases hmat : materializeKey values operation.variables' with
              | error m =>
                  have := materializeKey_error_iff values operation.variables' e
                  rw [hmat] at this
                  simpa [hmat] using this
              | ok key =>
                  simp only [hmat]
                  constructor
                  · intro h
                    exact absurd h (by simp)
                  · intro h
                    have := (materializeKey_error_iff values operation.variables' e).mpr h
                    rw [hmat] at this
                    exact absurd this (by simp)
          | varNode n =>
              have hext : extractDirectiveArguments operation.query cache =
                  (.error ("The @" ++ DIRECTIVE_NAME ++
                    " directive\x27s \x27key\x27 argument must be of type List, got Argument"),
                    cache) := by
                unfold extractDirectiveArguments
                simp [hmiss, hcheck, hop, hdir, hfind, harg]
              unfold extractKey pipelineErrorSpec
              rw [show ("The @" ++ DIRECTIVE_NAME ++
                " directive\x27s \x27key\x27 argument must be of type List, got Argument") =
                "The @serialize directive\x27s \x27key\x27 argument must be of type List, got Argument"
                from rfl] at hext
              simp [hkey, hext, hdir, hfind, harg]
          | intValue s =>
              have hext : extractDirectiveArguments operation.query cache =
                  (.error ("The @" ++ DIRECTIVE_NAME ++
                    " directive\x27s \x27key\x27 argument must be of type List, got Argument"),
                    cache) := by
                unfold extractDirectiveArguments
                simp [hmiss, hcheck, hop, hdir, hfind, harg]
              unfold extractKey pipelineErrorSpec
              rw [show ("The @" ++ DIRECTIVE_NAME ++
                " directive\x27s \x27key\x27 argument must be of type List, got Argument") =
                "The @serialize directive\x27s \x27key\x27 argument must be of type List, got Argument"
                from rfl] at hext
              simp [hkey, hext, hdir, hfind, harg]
          | floatValue s =>
              have hext : extractDirectiveArguments operation.query cache =
                  (.error ("The @" ++ DIRECTIVE_NAME ++
                    " directive\x27s \x27key\x27 argument must be of type List, got Argument"),
                    cache) := by
                unfold extractDirectiveArguments
                simp [hmiss, hcheck, hop, hdir, hfind, harg]
              unfold extractKey pipelineErrorSpec
              rw [show ("The @" ++ DIRECTIVE_NAME ++
                " directive\x27s \x27key\x27 argument must be of type List, got Argument") =
                "The @serialize directive\x27s \x27key\x27 argument must be of type List, got Argument"
                from rfl] at hext
              simp [hkey, hext, hdir, hfind, harg]
          | stringValue s =>
              have hext : extractDirectiveArguments operation.query cache =
                  (.error ("The @" ++ DIRECTIVE_NAME ++
                    " directive\x27s \x27key\x27 argument must be of type List, got Argument"),
                    cache) := by
                unfold extractDirectiveArguments
                simp [hmiss, hcheck, hop, hdir, hfind, harg]
              unfold extractKey pipelineErrorSpec
              rw [show ("The @" ++ DIRECTIVE_NAME ++
                " directive\x27s \x27key\x27 argument must be of type List, got Argument") =
                "The @serialize directive\x27s \x27key\x27 argument must be of type List, got Argument"
                from rfl] at hext
              simp [hkey, hext, hdir, hfind, harg]
          | booleanValue b =>
              have hext : extractDirectiveArguments operation.query cache =
                  (.error ("The @" ++ DIRECTIVE_NAME ++
                    " directive\x27s \x27key\x27 argument must be of type List, got Argument"),
                    cache) := by
                unfold extractDirectiveArguments
                simp [hmiss, hcheck, hop, hdir, hfind, harg]
              unfold extractKey pipelineErrorSpec
              rw [show ("The @" ++ DIRECTIVE_NAME ++
                " directive\x27s \x27key\x27 argument must be of type List, got Argument") =
                "The @serialize directive\x27s \x27key\x27 argument must be of type List, got Argument"
                from rfl] at hext
              simp [hkey, hext, hdir, hfind, harg]
          | enumValue s =>
              have hext : extractDirectiveArguments operation.query cache =
                  (.error ("The @" ++ DIRECTIVE_NAME ++
                    " directive\x27s \x27key\x27 argument must be of type List, got Argument"),
                    cache) := by
                unfold extractDirectiveArguments
                simp [hmiss, hcheck, hop, hdir, hfind, harg]
              unfold extractKey pipelineErrorSpec
              rw [show ("The @" ++ DIRECTIVE_NAME ++
                " directive\x27s \x27key\x27 argument must be of type List, got Argument") =
                "The @serialize directive\x27s \x27key\x27 argument must be of type List, got Argument"
                from rfl] at hext
              simp [hkey, hext, hdir, hfind, harg]
          | objectValue fs =>
              have hext : extractDirectiveArguments operation.query cache =
                  (.error ("The @" ++ DIRECTIVE_NAME ++
                    " directive\x27s \x27key\x27 argument must be of type List, got Argument"),
                    cache) := by
                unfold extractDirectiveArguments
                simp [hmiss, hcheck, hop, hdir, hfind, harg]
              unfold extractKey pipelineErrorSpec
              rw [show ("The @" ++ DIRECTIVE_NAME ++
                " directive\x27s \x27key\x27 argument must be of type List, got Argument") =
                "The @serialize directive\x27s \x27key\x27 argument must be of type List, got Argument"
                from rfl] at hext
              simp [hkey, hext, hdir, hfind, harg]

/-- Witness for `keyPipeline_error_characterization`: a serialize
directive without arguments makes `extractKey` fail with the message
naming the directive. -/
theorem keyPipeline_error_characterization_witness :
    (extractKey exNoKeyOp []).1 =
      .error "The @serialize directive requires a \x27key\x27 argument" := by
  have h := keyPipeline_error_characterization exNoKeyOp [] exNoKeyOpDef rfl rfl rfl rfl
  exact (h _).mpr rfl

theorem findSome?_updateAux (f : OperationDefinition → OperationDefinition)
    (l : List Definition) :
    (updateFirstOperationDefinitionAux f l).findSome? (fun d =>
      match d with | .operationDefinition op => some op | _ => none) =
    (l.findSome? (fun d =>
      match d with | .operationDefinition op => some op | _ => none)).map f := by
  induction l with
  | nil => simp [updateFirstOperationDefinitionAux]
  | cons d rest ih =>
      cases d with
      | operationDefinition op =>
          simp [updateFirstOperationDefinitionAux, List.findSome?_cons]
      | fragmentDefinition frag =>
          simpa [updateFirstOperationDefinitionAux, List.findSome?_cons] using ih
      | otherDefinition =>
          simpa [updateFirstOperationDefinitionAux, List.findSome?_cons] using ih

theorem getOperationDefinition_update (doc : Document)
    (f : OperationDefinition → OperationDefinition) :
    getOperationDefinition (updateFirstOperationDefinition doc f) =
      (getOperationDefinition doc).map f := by
  unfold getOperationDefinition updateFirstOperationDefinition
  exact findSome?_updateAux f doc.definitions

theorem varDefsFilter_eq_self (defs : List VariableDefinition) (names used : List String)
    (h : ∀ x ∈ names, x ∈ used) :
    defs.filter (fun d =>
      !(names.contains d.variableName) || used.contains d.variableName) = defs := by
  rw [List.filter_eq_self]
  intro d _
  by_cases hm : d.variableName ∈ names
  · simp [hm, h d.variableName hm]
  · simp [hm]

theorem removeVarDefs_characterization (names : List String) (doc : Document)
    (vd : Option (List VariableDefinition)) (ds : List Directive) (ss : List Selection)
    (hop : getOperationDefinition doc = some ⟨vd, ds, ss⟩) :
    getOperationDefinition (removeVariableDefinitionsFromDocumentIfUnused names doc) =
      some ⟨vd.map (fun defs => defs.filter (fun d =>
        !(names.contains d.variableName) ||
        (getVariablesFromArguments (getAllArgumentsFromDocument doc)).contains
          d.variableName)), ds, ss⟩ := by
  by_cases h1 : names.length < 1
  · have hstep : removeVariableDefinitionsFromDocumentIfUnused names doc = doc := by
      unfold removeVariableDefinitionsFromDocumentIfUnused
      rw [if_pos h1]
    have hnil : names = [] := by
      cases hn : names with
      | nil => rfl
      | cons a l => rw [hn] at h1; simp at h1
    rw [hstep, hop, hnil]
    cases vd with
    | none => rfl
    | some defs =>
        have h := varDefsFilter_eq_self defs []
          (getVariablesFromArguments (getAllArgumentsFromDocument doc))
          (by intro x hx; simp at hx)
        rw [Option.map_some', h]
  · by_cases h2 : (names.filter (fun name =>
        !((getVariablesFromArguments (getAllArgumentsFromDocument doc)).contains
          name))).length < 1
    · have hstep : removeVariableDefinitionsFromDocumentIfUnused names doc = doc := by
        unfold removeVariableDefinitionsFromDocumentIfUnused
        rw [if_neg h1]
        show (if _ then _ else _) = _
        rw [if_pos h2]
      have hall : ∀ x ∈ names,
          x ∈ getVariablesFromArguments (getAllArgumentsFromDocument doc) := by
        have hfe : names.filter (fun name =>
            !((getVariablesFromArguments (getAllArgumentsFromDocument doc)).contains
              name)) = [] := by
          cases hn : names.filter (fun name =>
              !((getVariablesFromArguments (getAllArgumentsFromDocument doc)).contains
                name)) with
          | nil => rfl
          | cons a l => rw [hn] at h2; simp at h2
        intro x hx
        have := List.filter_eq_nil_iff.mp hfe x hx
        simpa using this
      rw [hstep, hop]
      cases vd with
      | none => rfl
      | some defs =>
          have h := varDefsFilter_eq_self defs names
            (getVariablesFromArguments (getAllArgumentsFromDocument doc)) hall
          rw [Option.map_some', h]
    · have hstep : removeVariableDefinitionsFromDocumentIfUnused names doc =
          updateFirstOperationDefinition doc (fun o =>
            match o.variableDefinitions with
            | none => o
            | some defs =>
                let kept := defs.filter (fun d =>
                  !((names.filter (fun name =>
                    !((getVariablesFromArguments
                      (getAllArgumentsFromDocument doc)).contains name))).contains
                    d.variableName))
                { o with variableDefinitions := some kept }) := by
        unfold removeVariableDefinitionsFromDocumentIfUnused
        rw [if_neg h1]
        show (if _ then _ else _) = _
        rw [if_neg h2]
      rw [hstep, getOperationDefinition_update, hop]
      cases vd with
      | none => rfl
      | some defs =>
          have hcongr : defs.filter (fun d =>
              !((names.filter (fun name =>
                !((getVariablesFromArguments
                  (getAllArgumentsFromDocument doc)).contains name))).contains
                d.variableName)) =
              defs.filter (fun d =>
                !(names.contains d.variableName) ||
                (getVariablesFromArguments (getAllArgumentsFromDocument doc)).contains
                  d.variableName) := by
            apply List.filter_congr
            intro d _
            by_cases hm : d.variableName ∈ names <;>
              by_cases hu : d.variableName ∈
                getVariablesFromArguments (getAllArgumentsFromDocument doc) <;>
              simp [List.mem_filter, hm, hu]
          rw [Option.map_some', Option.map_some', ← hcongr]

/-- C7 as amended: `removeDirectiveFromDocument` produces a document whose
operation definition has the matched directive removed from its directive
list and keeps its selection set; a variable declaration is removed exactly
when it is referenced by the removed directive's arguments and not seen as
used by the argument walker over the directive-stripped document — and
retained whenever the walker sees it used elsewhere.  (Because the walker
skips the selection sets of non-field selections, "used elsewhere" is
weaker than the claim's "anywhere in the whole document"; see the
counterexample.)  The embedding is pure: the input document is never
mutated, modelling the source's deep clone.  Reference-identity filtering
(`node !== directive`) is modelled by value filtering, which coincides on
alias-free parser trees without duplicate identical directives. -/
theorem removeDirectiveFromDocument_spec (doc : Document) (op : OperationDefinition)
    (dir : Directive) (hop : getOperationDefinition doc = some op) :
    getOperationDefinition (removeDirectiveFromDocument doc (some dir)) =
      some (specRewrittenOperation doc op dir) ∧
    dir ∉ (specRewrittenOperation doc op dir).directives := by
  obtain ⟨vd, ds, ss⟩ := op
  have hopS : getOperationDefinition (specStrippedDocument doc dir) =
      some ⟨vd, ds.filter (fun node => node != dir), ss⟩ := by
    rw [specStrippedDocument, getOperationDefinition_update, hop]
    rfl
  constructor
  · have hred : removeDirectiveFromDocument doc (some dir) =
        removeVariableDefinitionsFromDocumentIfUnused
          (getVariablesFromArguments dir.arguments) (specStrippedDocument doc dir) := rfl
    rw [hred]
    exact removeVarDefs_characterization _ _ _ _ _ hopS
  · simp [specRewrittenOperation, List.mem_filter]

/-- C7 counterexample: the claim says a declaration still referenced
elsewhere in the whole document is retained.  In `exInlineFragmentDoc` the
variable `$v` is referenced by the serialize key AND by a field argument
inside an inline fragment; since the walker never descends into the inline
fragment's selection set, the declaration of `$v` is removed although the
rewritten document still references it. -/
theorem removeDirective_drops_still_used_variable_cex :
    removeDirectiveFromDocument exInlineFragmentDoc (some exKeyDir) =
      ⟨[.operationDefinition ⟨some [], [], exInlineSelections⟩]⟩ ∧
    getVariablesFromArguments [⟨"x", .varNode "v"⟩] = ["v"] ∧
    exInlineSelections = [.inlineFragment [] [.field [] [⟨"x", .varNode "v"⟩] none]] :=
  ⟨rfl, rfl, rfl⟩

/-- Witness for `removeDirectiveFromDocument_spec` at the concrete
inline-fragment document. -/
theorem removeDirectiveFromDocument_spec_witness :
    getOperationDefinition (removeDirectiveFromDocument exInlineFragmentDoc (some exKeyDir)) =
      some ⟨some [], [], exInlineSelections⟩ := by
  have h := removeDirectiveFromDocument_spec exInlineFragmentDoc exInlineOpDef exKeyDir rfl
  exact h.1.trans (by rfl)

end ApolloLinkGate
